import Mathlib

/-!
Shallow embedding of `py/torch_migraphx/dynamo/lower_dynamo.py`.

The file under verification is an orchestration layer with two operations:

* `lower_aten_to_mgx(gm, example_inputs, **kwargs)` — normalizes the traced
  root graph with `run_aten_passes`, then for each named child subgraph
  resolves partition inputs, lowers the child with `lower_subgraph`, and
  substitutes the compiled wrapper back into the root via `setattr`.
* `lower_subgraph(module, inputs, **kwargs)` — runs `ShapeProp` (an in-place
  mutation of the subgraph's node metadata), runs the `MGXInterpreter`,
  optionally saves the compiled program to `<name>.mxr` (default
  `"prog.mxr"`), and wraps program/input-names/fp16 flag in an `MGXModule`.

External collaborators (`run_aten_passes`, `get_partition_inputs`,
`ShapeProp`, `MGXInterpreter`, `migraphx.save`, `print_graph_info`) live in
other modules; they are modelled as an abstract environment `Env` of fallible
functions. Observable side effects (diagnostic graph-info printing and
artifact file writes) are recorded in an event trace. In-place mutation of a
subgraph by shape propagation is modelled by returning the updated module
value; the aliasing between a child object and its slot in the root module is
modelled by writing the updated module back into the slot.
-/

namespace TorchMigraphx

/-- A Python keyword-argument value as used by this file: the options are
either booleans (`verbose`, `fp16`, `save_mxr`) or strings (`name`). -/
inductive PyVal where
  | bool (b : Bool)
  | str (s : String)
deriving DecidableEq, Repr

/-- Python truthiness of an option value (`if verbose:` etc.). -/
def PyVal.truthy : PyVal → Bool
  | .bool b => b
  | .str s => s ≠ ""

/-- Python `str()` of an option value, as used by the f-string
`f"(kwargs-name).mxr"` when building the artifact filename. -/
def PyVal.toStr : PyVal → String
  | .bool b => if b then "True" else "False"
  | .str s => s

/-- The `**kwargs` dictionary: a key/value list (keys unique in Python). -/
abbrev Kwargs := List (String × PyVal)

/-- Dictionary lookup, `kwargs[key]` / `key in kwargs`. -/
def kwLookup : Kwargs → String → Option PyVal
  | [], _ => none
  | (k, v) :: rest, key => if k = key then some v else kwLookup rest key

/-- `kwargs[key] if key in kwargs else False` — the idiom used for the
`verbose`, `fp16` and `save_mxr` options. -/
def kwGetD (kw : Kwargs) (key : String) : PyVal :=
  (kwLookup kw key).getD (PyVal.bool false)

/-- A `torch.fx.GraphModule`: an opaque graph identity plus the node metadata
that `ShapeProp(module).propagate(*inputs)` mutates in place. -/
structure GraphModule where
  gid : Nat
  nodeMeta : Nat
deriving DecidableEq, Repr

/-- An opaque compiled MIGraphX program (`interpreter.program`). -/
structure MGXProgram where
  pid : Nat
deriving DecidableEq, Repr

/-- The compiled wrapper: `MGXModule(program=..., input_names=...,
quantize_fp16=fp16)`. It stores exactly the three constructor arguments. -/
structure MGXModule where
  program : MGXProgram
  input_names : List String
  quantize_fp16 : PyVal
deriving DecidableEq, Repr

/-- The value held by a named child slot of the root module: either the
original subgraph (`torch.fx.GraphModule`) or a compiled wrapper. -/
inductive ChildVal where
  | sub (g : GraphModule)
  | mgx (m : MGXModule)
deriving DecidableEq, Repr

/-- The normalized root returned by `run_aten_passes`: its named child
subgraphs in `named_children()` iteration order. -/
structure NormRoot where
  children : List (String × GraphModule)
deriving DecidableEq, Repr

/-- The mutable root module state during/after the substitution loop:
a mapping from child name to slot value, in iteration order. -/
structure RootModule where
  children : List (String × ChildVal)
deriving DecidableEq, Repr

/-- Observable side effects of the orchestration code: a
`print_graph_info(label, ...)` call and a `migraphx.save(program, filename)`
file write. -/
inductive Event where
  | printGraphInfo (label : String)
  | saveFile (prog : MGXProgram) (filename : String)
deriving DecidableEq, Repr

/-- Python exceptions propagated from collaborators, by message. -/
abbrev Err := String

/-- Example input tensors are opaque tokens. -/
abbrev Tensor := Nat

/-- The external collaborators called by `lower_dynamo.py`, as fallible
functions. `run_aten_passes` and `interpret` also receive the raw `verbose`
kwarg value (`verbose=verbose` / `verbose_log=verbose`). -/
structure Env where
  run_aten_passes : GraphModule → List Tensor → PyVal → Except Err NormRoot
  get_partition_inputs : RootModule → GraphModule → List Tensor → Except Err (List Tensor)
  shape_prop : GraphModule → List Tensor → Except Err GraphModule
  interpret : GraphModule → List Tensor → PyVal → Except Err (MGXProgram × List String)

/-- The artifact filename expression of `lower_subgraph`:
`f"(kwargs-name).mxr" if 'name' in kwargs else "prog.mxr"`. -/
def mxr_filename (kw : Kwargs) : String :=
  match kwLookup kw "name" with
  | some v => v.toStr ++ ".mxr"
  | none => "prog.mxr"

/-- Result of one `lower_subgraph` call: the returned wrapper or the
propagated exception, the final state of the (in-place mutated) subgraph
object, and the trace of observable events. -/
structure SubOutcome where
  result : Except Err MGXModule
  finalModule : GraphModule
  events : List Event
deriving Repr

/-- `lower_subgraph(module, inputs, **kwargs)`: shape propagation (in-place
mutation), interpretation, optional `migraphx.save` to `mxr_filename`, then
`MGXModule(program=..., input_names=..., quantize_fp16=fp16)`. -/
def lower_subgraph (env : Env) (module : GraphModule) (inputs : List Tensor)
    (kw : Kwargs) : SubOutcome :=
  match env.shape_prop module inputs with
  | .error e => ⟨.error e, module, []⟩
  | .ok m' =>
    let verbose := kwGetD kw "verbose"
    let fp16 := kwGetD kw "fp16"
    let save_mxr := kwGetD kw "save_mxr"
    match env.interpret m' inputs verbose with
    | .error e => ⟨.error e, m', []⟩
    | .ok (prog, input_names) =>
      let events := if save_mxr.truthy then [Event.saveFile prog (mxr_filename kw)] else []
      ⟨.ok ⟨prog, input_names, fp16⟩, m', events⟩

/-- The keyword arguments of the call at line 73,
`lower_subgraph(mod, partition_inputs, name=name, **kwargs)`: the child's
attribute name bound to `name`, together with all top-level kwargs. -/
def subgraphCallKwargs (name : String) (kw : Kwargs) : Kwargs :=
  ("name", PyVal.str name) :: kw

/-- `setattr(optim_gm, name, v)` on a child slot: replace the value stored
under `name` (Python module `_modules` keys are unique). -/
def replaceFirst : List (String × ChildVal) → String → ChildVal → List (String × ChildVal)
  | [], _, _ => []
  | (n, w) :: rest, name, v =>
    if n = name then (n, v) :: rest else (n, w) :: replaceFirst rest name v

/-- `setattr` on the root module. -/
def setattrChild (r : RootModule) (name : String) (v : ChildVal) : RootModule :=
  ⟨replaceFirst r.children name v⟩

/-- Child slots holding original subgraphs. -/
def subSlots (cs : List (String × GraphModule)) : List (String × ChildVal) :=
  cs.map (fun p => (p.1, ChildVal.sub p.2))

/-- Child slots holding compiled wrappers (one wrapper per child, pairwise). -/
def mgxSlots (cs : List (String × GraphModule)) (ws : List MGXModule) :
    List (String × ChildVal) :=
  (cs.zip ws).map (fun q => (q.1.1, ChildVal.mgx q.2))

/-- Root module as returned by `run_aten_passes`: every named child slot
still holds its original subgraph. -/
def initRoot (nr : NormRoot) : RootModule :=
  ⟨subSlots nr.children⟩

/-- Result of the substitution loop of `lower_aten_to_mgx`. -/
structure LoopOut where
  result : Except Err Unit
  root : RootModule
  events : List Event
deriving Repr

/-- The `for name, mod in optim_gm.named_children():` loop of
`lower_aten_to_mgx`, over the remaining children, carrying the current root.
Per child: `get_partition_inputs(optim_gm, mod, example_inputs)`; the
`verbose` print; the call `lower_subgraph(mod, partition_inputs, name=name,
**kwargs)` (a `TypeError` at the call site if `'name'` is already in kwargs,
per Python keyword-argument semantics); `setattr(optim_gm, name, mgx_mod)`.
On a `lower_subgraph` exception the child object's in-place shape-metadata
mutation stays visible through its slot (aliasing). -/
def lowerChildren (env : Env) (example_inputs : List Tensor) (kw : Kwargs)
    (verbose : PyVal) :
    List (String × GraphModule) → RootModule → LoopOut
  | [], root => ⟨.ok (), root, []⟩
  | (name, mod) :: rest, root =>
    match env.get_partition_inputs root mod example_inputs with
    | .error e => ⟨.error e, root, []⟩
    | .ok partition_inputs =>
      let ev1 := if verbose.truthy then [Event.printGraphInfo name] else []
      if (kwLookup kw "name").isSome then
        ⟨.error "TypeError: lower_subgraph got multiple values for keyword argument name",
          root, ev1⟩
      else
        let out := lower_subgraph env mod partition_inputs (subgraphCallKwargs name kw)
        match out.result with
        | .error e =>
          ⟨.error e, setattrChild root name (ChildVal.sub out.finalModule), ev1 ++ out.events⟩
        | .ok mgx_mod =>
          let restOut := lowerChildren env example_inputs kw verbose rest
            (setattrChild root name (ChildVal.mgx mgx_mod))
          ⟨restOut.result, restOut.root, ev1 ++ out.events ++ restOut.events⟩

/-- Result of `lower_aten_to_mgx`: the returned root or propagated exception,
the final state of the normalized root (`none` when normalization itself
failed, so no normalized root exists), and the event trace. -/
structure AtenOutcome where
  result : Except Err RootModule
  finalRoot : Option RootModule
  events : List Event
deriving Repr

/-- `lower_aten_to_mgx(gm, example_inputs, **kwargs)`: read `verbose`,
optionally print the traced model, normalize via `run_aten_passes(gm,
example_inputs, verbose=verbose)`, then run the substitution loop and return
the (in-place substituted) normalized root. -/
def lower_aten_to_mgx (env : Env) (gm : GraphModule)
    (example_inputs : List Tensor) (kw : Kwargs) : AtenOutcome :=
  let verbose := kwGetD kw "verbose"
  let ev0 := if verbose.truthy then [Event.printGraphInfo "Traced Model"] else []
  match env.run_aten_passes gm example_inputs verbose with
  | .error e => ⟨.error e, none, ev0⟩
  | .ok optim =>
    let loopOut := lowerChildren env example_inputs kw verbose optim.children (initRoot optim)
    match loopOut.result with
    | .error e => ⟨.error e, some loopOut.root, ev0 ++ loopOut.events⟩
    | .ok _ => ⟨.ok loopOut.root, some loopOut.root, ev0 ++ loopOut.events⟩

/-! ### Concrete environments used to exercise the embedding -/

/-- An environment in which every collaborator succeeds: normalization yields
two named children, shape propagation bumps the node metadata in place, and
interpretation yields a program derived from the graph identity. -/
def okEnv : Env where
  run_aten_passes := fun _ _ _ => .ok ⟨[("c0", ⟨0, 0⟩), ("c1", ⟨1, 0⟩)]⟩
  get_partition_inputs := fun _ g _ => .ok [g.gid]
  shape_prop := fun g _ => .ok ⟨g.gid, g.nodeMeta + 1⟩
  interpret := fun g _ _ => .ok (⟨g.gid⟩, ["x0"])

/-- An environment with three named children in which interpretation of the
second child (graph identity 1) raises an unsupported-operation error. -/
def failSecondEnv : Env where
  run_aten_passes := fun _ _ _ => .ok ⟨[("c0", ⟨0, 0⟩), ("c1", ⟨1, 0⟩), ("c2", ⟨2, 0⟩)]⟩
  get_partition_inputs := fun _ g _ => .ok [g.gid]
  shape_prop := fun g _ => .ok ⟨g.gid, g.nodeMeta + 1⟩
  interpret := fun g _ _ =>
    if g.gid = 1 then .error "unsupported operation" else .ok (⟨g.gid⟩, ["x0"])

/-- An environment in which shape propagation always raises (mismatched
input count). -/
def shapeFailEnv : Env where
  run_aten_passes := fun _ _ _ => .ok ⟨[("c0", ⟨0, 0⟩)]⟩
  get_partition_inputs := fun _ g _ => .ok [g.gid]
  shape_prop := fun _ _ => .error "ShapeProp: mismatched input count"
  interpret := fun g _ _ => .ok (⟨g.gid⟩, ["x0"])

/-- An environment in which shape propagation succeeds (mutating node
metadata) but interpretation always raises. -/
def interpFailEnv : Env where
  run_aten_passes := fun _ _ _ => .ok ⟨[("c0", ⟨0, 0⟩)]⟩
  get_partition_inputs := fun _ g _ => .ok [g.gid]
  shape_prop := fun g _ => .ok ⟨g.gid, g.nodeMeta + 1⟩
  interpret := fun _ _ _ => .error "MGXInterpreter: unsupported operation"

/-- An environment with a single named child `c0`, everything succeeding. -/
def oneChildEnv : Env where
  run_aten_passes := fun _ _ _ => .ok ⟨[("c0", ⟨0, 0⟩)]⟩
  get_partition_inputs := fun _ g _ => .ok [g.gid]
  shape_prop := fun g _ => .ok ⟨g.gid, g.nodeMeta + 1⟩
  interpret := fun g _ _ => .ok (⟨g.gid⟩, ["x0"])

/-! ### Helper lemmas about kwargs and slot substitution -/

theorem kwLookup_subgraphCallKwargs_name (name : String) (kw : Kwargs) :
    kwLookup (subgraphCallKwargs name kw) "name" = some (PyVal.str name) := by
  simp [subgraphCallKwargs, kwLookup]

theorem kwLookup_subgraphCallKwargs_ne (name : String) (kw : Kwargs)
    (k : String) (h : k ≠ "name") :
    kwLookup (subgraphCallKwargs name kw) k = kwLookup kw k := by
  simp [subgraphCallKwargs, kwLookup, Ne.symm h]

theorem mxr_filename_subgraphCallKwargs (name : String) (kw : Kwargs) :
    mxr_filename (subgraphCallKwargs name kw) = name ++ ".mxr" := by
  simp [mxr_filename, kwLookup_subgraphCallKwargs_name, PyVal.toStr]

theorem replaceFirst_map_fst (l : List (String × ChildVal)) (name : String)
    (v : ChildVal) :
    (replaceFirst l name v).map Prod.fst = l.map Prod.fst := by
  induction l with
  | nil => rfl
  | cons hd tl ih =>
    obtain ⟨n, w⟩ := hd
    by_cases h : n = name <;> simp [replaceFirst, h, ih]

theorem replaceFirst_append_of_not_mem (done l : List (String × ChildVal))
    (name : String) (v : ChildVal) (h : name ∉ done.map Prod.fst) :
    replaceFirst (done ++ l) name v = done ++ replaceFirst l name v := by
  induction done with
  | nil => rfl
  | cons hd tl ih =>
    obtain ⟨n, w⟩ := hd
    simp only [List.map_cons, List.mem_cons, not_or] at h
    simp [replaceFirst, Ne.symm h.1, ih h.2]

theorem replaceFirst_cons_self (name : String) (w v : ChildVal)
    (rest : List (String × ChildVal)) :
    replaceFirst ((name, w) :: rest) name v = (name, v) :: rest := by
  simp [replaceFirst]

theorem subSlots_map_fst (cs : List (String × GraphModule)) :
    (subSlots cs).map Prod.fst = cs.map Prod.fst := by
  simp [subSlots]

theorem mgxSlots_map_fst (cs : List (String × GraphModule)) (ws : List MGXModule)
    (h : ws.length = cs.length) :
    (mgxSlots cs ws).map Prod.fst = cs.map Prod.fst := by
  induction cs generalizing ws with
  | nil => simp [mgxSlots]
  | cons hd tl ih =>
    cases ws with
    | nil => simp at h
    | cons w ws' =>
      simp only [List.length_cons, Nat.succ.injEq] at h
      have htl := ih ws' h
      simp only [mgxSlots] at htl ⊢
      obtain ⟨n, g⟩ := hd
      simp only [List.zip_cons_cons, List.map_cons, List.map_map] at htl ⊢
      simp [htl]

/-! ### One-step equations for the substitution loop -/

theorem lowerChildren_nil (env : Env) (ex : List Tensor) (kw : Kwargs)
    (verbose : PyVal) (root : RootModule) :
    lowerChildren env ex kw verbose [] root = ⟨Except.ok (), root, []⟩ := rfl

theorem lowerChildren_cons_pin_error (env : Env) (ex : List Tensor) (kw : Kwargs)
    (verbose : PyVal) (name : String) (mod : GraphModule)
    (rest : List (String × GraphModule)) (root : RootModule) (e : Err)
    (hpin : env.get_partition_inputs root mod ex = Except.error e) :
    lowerChildren env ex kw verbose ((name, mod) :: rest) root =
      ⟨Except.error e, root, []⟩ := by
  simp [lowerChildren, hpin]

theorem lowerChildren_cons_dup_name (env : Env) (ex : List Tensor) (kw : Kwargs)
    (verbose : PyVal) (name : String) (mod : GraphModule)
    (rest : List (String × GraphModule)) (root : RootModule) (pin : List Tensor)
    (hpin : env.get_partition_inputs root mod ex = Except.ok pin)
    (hnm : (kwLookup kw "name").isSome = true) :
    lowerChildren env ex kw verbose ((name, mod) :: rest) root =
      ⟨Except.error "TypeError: lower_subgraph got multiple values for keyword argument name",
        root, if verbose.truthy then [Event.printGraphInfo name] else []⟩ := by
  simp [lowerChildren, hpin, hnm]

theorem lowerChildren_cons_sub_error (env : Env) (ex : List Tensor) (kw : Kwargs)
    (verbose : PyVal) (name : String) (mod : GraphModule)
    (rest : List (String × GraphModule)) (root : RootModule) (pin : List Tensor)
    (e : Err)
    (hpin : env.get_partition_inputs root mod ex = Except.ok pin)
    (hnm : (kwLookup kw "name").isSome = false)
    (hres : (lower_subgraph env mod pin (subgraphCallKwargs name kw)).result =
      Except.error e) :
    lowerChildren env ex kw verbose ((name, mod) :: rest) root =
      ⟨Except.error e,
        setattrChild root name
          (ChildVal.sub (lower_subgraph env mod pin (subgraphCallKwargs name kw)).finalModule),
        (if verbose.truthy then [Event.printGraphInfo name] else []) ++
          (lower_subgraph env mod pin (subgraphCallKwargs name kw)).events⟩ := by
  simp [lowerChildren, hpin, hnm, hres]

theorem lowerChildren_cons_sub_ok (env : Env) (ex : List Tensor) (kw : Kwargs)
    (verbose : PyVal) (name : String) (mod : GraphModule)
    (rest : List (String × GraphModule)) (root : RootModule) (pin : List Tensor)
    (m : MGXModule)
    (hpin : env.get_partition_inputs root mod ex = Except.ok pin)
    (hnm : (kwLookup kw "name").isSome = false)
    (hres : (lower_subgraph env mod pin (subgraphCallKwargs name kw)).result =
      Except.ok m) :
    lowerChildren env ex kw verbose ((name, mod) :: rest) root =
      ⟨(lowerChildren env ex kw verbose rest
          (setattrChild root name (ChildVal.mgx m))).result,
        (lowerChildren env ex kw verbose rest
          (setattrChild root name (ChildVal.mgx m))).root,
        (if verbose.truthy then [Event.printGraphInfo name] else []) ++
          (lower_subgraph env mod pin (subgraphCallKwargs name kw)).events ++
          (lowerChildren env ex kw verbose rest
            (setattrChild root name (ChildVal.mgx m))).events⟩ := by
  simp [lowerChildren, hpin, hnm, hres, List.append_assoc]

/-! ### Structural lemmas about the substitution loop -/

theorem lowerChildren_ok_shape (env : Env) (ex : List Tensor) (kw : Kwargs)
    (verbose : PyVal) (cs : List (String × GraphModule)) :
    ∀ (done extra : List (String × ChildVal)),
      ((done ++ subSlots cs ++ extra).map Prod.fst).Nodup →
      (lowerChildren env ex kw verbose cs ⟨done ++ subSlots cs ++ extra⟩).result =
        Except.ok () →
      ∃ ws : List MGXModule, ws.length = cs.length ∧
        (lowerChildren env ex kw verbose cs ⟨done ++ subSlots cs ++ extra⟩).root =
          ⟨done ++ mgxSlots cs ws ++ extra⟩ := by
  induction cs with
  | nil =>
    intro done extra _ _
    refine ⟨[], rfl, ?_⟩
    rw [lowerChildren_nil]
    simp [mgxSlots, subSlots]
  | cons hd tl ih =>
    obtain ⟨name, mod⟩ := hd
    intro done extra hnd hok
    have hsub : subSlots ((name, mod) :: tl) = (name, ChildVal.sub mod) :: subSlots tl := rfl
    have hname_done : name ∉ done.map Prod.fst := by
      rw [hsub] at hnd
      simp only [List.map_append, List.map_cons, List.cons_append,
        List.append_assoc] at hnd
      have hdisj := (List.nodup_append.mp hnd).2.2
      intro hmem
      exact hdisj hmem (List.mem_cons_self _ _)
    cases hpin : env.get_partition_inputs ⟨done ++ subSlots ((name, mod) :: tl) ++ extra⟩ mod ex with
    | error e =>
      rw [lowerChildren_cons_pin_error env ex kw verbose name mod tl _ e hpin] at hok
      exact absurd hok (by simp)
    | ok pin =>
      cases hnm : (kwLookup kw "name").isSome with
      | true =>
        rw [lowerChildren_cons_dup_name env ex kw verbose name mod tl _ pin hpin hnm] at hok
        exact absurd hok (by simp)
      | false =>
        cases hres : (lower_subgraph env mod pin (subgraphCallKwargs name kw)).result with
        | error e =>
          rw [lowerChildren_cons_sub_error env ex kw verbose name mod tl _ pin e
            hpin hnm hres] at hok
          exact absurd hok (by simp)
        | ok m =>
          have hset :
              setattrChild ⟨done ++ subSlots ((name, mod) :: tl) ++ extra⟩ name
                  (ChildVal.mgx m) =
                ⟨(done ++ [(name, ChildVal.mgx m)]) ++ subSlots tl ++ extra⟩ := by
            simp only [setattrChild, hsub]
            rw [List.append_assoc, List.cons_append,
              replaceFirst_append_of_not_mem _ _ _ _ hname_done, replaceFirst_cons_self]
            simp [List.append_assoc]
          rw [lowerChildren_cons_sub_ok env ex kw verbose name mod tl _ pin m
            hpin hnm hres] at hok ⊢
          rw [hset] at hok ⊢
          have hok' : (lowerChildren env ex kw verbose tl
              ⟨(done ++ [(name, ChildVal.mgx m)]) ++ subSlots tl ++ extra⟩).result =
              Except.ok () := hok
          have hnd' :
              ((((done ++ [(name, ChildVal.mgx m)]) ++ subSlots tl ++ extra)).map
                Prod.fst).Nodup := by
            rw [hsub] at hnd
            simp only [List.map_append, List.map_cons, List.cons_append,
              List.append_assoc, List.singleton_append, List.nil_append] at hnd ⊢
            exact hnd
          obtain ⟨ws, hlen, hroot⟩ := ih (done ++ [(name, ChildVal.mgx m)]) extra hnd' hok'
          refine ⟨m :: ws, by simp [hlen], ?_⟩
          show (lowerChildren env ex kw verbose tl
            ⟨(done ++ [(name, ChildVal.mgx m)]) ++ subSlots tl ++ extra⟩).root =
              ⟨done ++ mgxSlots ((name, mod) :: tl) (m :: ws) ++ extra⟩
          rw [hroot]
          have hmgx : mgxSlots ((name, mod) :: tl) (m :: ws) =
              (name, ChildVal.mgx m) :: mgxSlots tl ws := rfl
          rw [hmgx]
          simp [List.append_assoc]

theorem lowerChildren_append_ok (env : Env) (ex : List Tensor) (kw : Kwargs)
    (verbose : PyVal) (bs : List (String × GraphModule)) :
    ∀ (as : List (String × GraphModule)) (root : RootModule),
      (lowerChildren env ex kw verbose as root).result = Except.ok () →
      lowerChildren env ex kw verbose (as ++ bs) root =
        ⟨(lowerChildren env ex kw verbose bs
            (lowerChildren env ex kw verbose as root).root).result,
         (lowerChildren env ex kw verbose bs
            (lowerChildren env ex kw verbose as root).root).root,
         (lowerChildren env ex kw verbose as root).events ++
           (lowerChildren env ex kw verbose bs
              (lowerChildren env ex kw verbose as root).root).events⟩ := by
  intro as
  induction as with
  | nil =>
    intro root _
    rw [List.nil_append, lowerChildren_nil]
    simp
  | cons hd tl ih =>
    obtain ⟨name, mod⟩ := hd
    intro root hok
    cases hpin : env.get_partition_inputs root mod ex with
    | error e =>
      rw [lowerChildren_cons_pin_error env ex kw verbose name mod tl root e hpin] at hok
      exact absurd hok (by simp)
    | ok pin =>
      cases hnm : (kwLookup kw "name").isSome with
      | true =>
        rw [lowerChildren_cons_dup_name env ex kw verbose name mod tl root pin hpin hnm] at hok
        exact absurd hok (by simp)
      | false =>
        cases hres : (lower_subgraph env mod pin (subgraphCallKwargs name kw)).result with
        | error e =>
          rw [lowerChildren_cons_sub_error env ex kw verbose name mod tl root pin e
            hpin hnm hres] at hok
          exact absurd hok (by simp)
        | ok m =>
          rw [lowerChildren_cons_sub_ok env ex kw verbose name mod tl root pin m
            hpin hnm hres] at hok
          have hok' : (lowerChildren env ex kw verbose tl
              (setattrChild root name (ChildVal.mgx m))).result = Except.ok () := hok
          rw [List.cons_append,
            lowerChildren_cons_sub_ok env ex kw verbose name mod (tl ++ bs) root pin m
              hpin hnm hres,
            lowerChildren_cons_sub_ok env ex kw verbose name mod tl root pin m
              hpin hnm hres,
            ih _ hok']
          simp [List.append_assoc]

theorem lower_subgraph_no_print (env : Env) (m : GraphModule) (ins : List Tensor)
    (kw : Kwargs) (l : String) :
    Event.printGraphInfo l ∉ (lower_subgraph env m ins kw).events := by
  unfold lower_subgraph
  cases hsp : env.shape_prop m ins with
  | error e => simp
  | ok m' =>
    cases hint : env.interpret m' ins (kwGetD kw "verbose") with
    | error e => simp [hint]
    | ok pr =>
      obtain ⟨prog, inames⟩ := pr
      by_cases h : (kwGetD kw "save_mxr").truthy <;> simp [h, hint]

theorem lower_subgraph_saveFile_name (env : Env) (m : GraphModule)
    (ins : List Tensor) (kw : Kwargs) (p : MGXProgram) (f : String) :
    Event.saveFile p f ∈ (lower_subgraph env m ins kw).events → f = mxr_filename kw := by
  unfold lower_subgraph
  cases hsp : env.shape_prop m ins with
  | error e => simp
  | ok m' =>
    cases hint : env.interpret m' ins (kwGetD kw "verbose") with
    | error e => simp [hint]
    | ok pr =>
      obtain ⟨prog, inames⟩ := pr
      by_cases h : (kwGetD kw "save_mxr").truthy <;> simp [h, hint]

theorem lowerChildren_no_print (env : Env) (ex : List Tensor) (kw : Kwargs)
    (verbose : PyVal) (hv : verbose.truthy = false) :
    ∀ (cs : List (String × GraphModule)) (root : RootModule) (l : String),
      Event.printGraphInfo l ∉ (lowerChildren env ex kw verbose cs root).events := by
  intro cs
  induction cs with
  | nil =>
    intro root l
    rw [lowerChildren_nil]
    simp
  | cons hd tl ih =>
    obtain ⟨name, mod⟩ := hd
    intro root l
    cases hpin : env.get_partition_inputs root mod ex with
    | error e =>
      rw [lowerChildren_cons_pin_error env ex kw verbose name mod tl root e hpin]
      simp
    | ok pin =>
      cases hnm : (kwLookup kw "name").isSome with
      | true =>
        rw [lowerChildren_cons_dup_name env ex kw verbose name mod tl root pin hpin hnm]
        simp [hv]
      | false =>
        cases hres : (lower_subgraph env mod pin (subgraphCallKwargs name kw)).result with
        | error e =>
          rw [lowerChildren_cons_sub_error env ex kw verbose name mod tl root pin e
            hpin hnm hres]
          simp only [hv, Bool.false_eq_true, if_false, List.nil_append]
          exact lower_subgraph_no_print env mod pin (subgraphCallKwargs name kw) l
        | ok m =>
          rw [lowerChildren_cons_sub_ok env ex kw verbose name mod tl root pin m
            hpin hnm hres]
          simp only [hv, Bool.false_eq_true, if_false, List.nil_append, List.mem_append,
            not_or]
          exact ⟨lower_subgraph_no_print env mod pin (subgraphCallKwargs name kw) l,
            ih _ l⟩

theorem lowerChildren_saveFile_name (env : Env) (ex : List Tensor) (kw : Kwargs)
    (verbose : PyVal) :
    ∀ (cs : List (String × GraphModule)) (root : RootModule) (p : MGXProgram)
      (f : String),
      Event.saveFile p f ∈ (lowerChildren env ex kw verbose cs root).events →
      ∃ name, name ∈ cs.map Prod.fst ∧ f = name ++ ".mxr" := by
  intro cs
  induction cs with
  | nil =>
    intro root p f h
    rw [lowerChildren_nil] at h
    simp at h
  | cons hd tl ih =>
    obtain ⟨name, mod⟩ := hd
    intro root p f
    have hev1 : ∀ b : Bool, Event.saveFile p f ∈
        (if b = true then [Event.printGraphInfo name] else []) → False := by
      intro b h
      cases b <;> simp at h
    cases hpin : env.get_partition_inputs root mod ex with
    | error e =>
      rw [lowerChildren_cons_pin_error env ex kw verbose name mod tl root e hpin]
      simp
    | ok pin =>
      cases hnm : (kwLookup kw "name").isSome with
      | true =>
        rw [lowerChildren_cons_dup_name env ex kw verbose name mod tl root pin hpin hnm]
        intro h
        exact (hev1 verbose.truthy h).elim
      | false =>
        cases hres : (lower_subgraph env mod pin (subgraphCallKwargs name kw)).result with
        | error e =>
          rw [lowerChildren_cons_sub_error env ex kw verbose name mod tl root pin e
            hpin hnm hres]
          intro h
          rcases List.mem_append.mp h with h | h
          · exact (hev1 verbose.truthy h).elim
          · refine ⟨name, by simp, ?_⟩
            rw [lower_subgraph_saveFile_name env mod pin (subgraphCallKwargs name kw) p f h,
              mxr_filename_subgraphCallKwargs]
        | ok m =>
          rw [lowerChildren_cons_sub_ok env ex kw verbose name mod tl root pin m
            hpin hnm hres]
          intro h
          rcases List.mem_append.mp h with h | h
          · rcases List.mem_append.mp h with h | h
            · exact (hev1 verbose.truthy h).elim
            · refine ⟨name, by simp, ?_⟩
              rw [lower_subgraph_saveFile_name env mod pin (subgraphCallKwargs name kw) p f h,
                mxr_filename_subgraphCallKwargs]
          · obtain ⟨n, hn, hf⟩ := ih _ p f h
            exact ⟨n, by simp [hn], hf⟩

theorem subSlots_append (a b : List (String × GraphModule)) :
    subSlots (a ++ b) = subSlots a ++ subSlots b := by
  simp [subSlots]

/-! ### Claims -/

/-- C1: for every root graph module whose normalization yields N named child
subgraphs (with distinct names, as Python module attribute dictionaries
guarantee), a successful `lower_aten_to_mgx` call returns the same normalized
root structure — same child names in the same order — in which all N child
slots hold compiled `MGXModule` wrappers and no slot still holds its original
subgraph. -/
theorem C1_success_all_children_compiled (env : Env) (gm : GraphModule)
    (example_inputs : List Tensor) (kw : Kwargs) (nr : NormRoot)
    (hnr : env.run_aten_passes gm example_inputs (kwGetD kw "verbose") = Except.ok nr)
    (hnd : (nr.children.map Prod.fst).Nodup)
    (r : RootModule)
    (hok : (lower_aten_to_mgx env gm example_inputs kw).result = Except.ok r) :
    r.children.map Prod.fst = nr.children.map Prod.fst ∧
    r.children.length = nr.children.length ∧
    ∀ p ∈ r.children, ∃ m : MGXModule, p.2 = ChildVal.mgx m := by
  cases hloop : (lowerChildren env example_inputs kw (kwGetD kw "verbose")
      nr.children (initRoot nr)).result with
  | error e =>
    have hcontra : (lower_aten_to_mgx env gm example_inputs kw).result =
        Except.error e := by
      simp [lower_aten_to_mgx, hnr, hloop]
    rw [hok] at hcontra
    exact absurd hcontra (by simp)
  | ok u =>
    cases u
    have hres : (lower_aten_to_mgx env gm example_inputs kw).result =
        Except.ok (lowerChildren env example_inputs kw (kwGetD kw "verbose")
          nr.children (initRoot nr)).root := by
      simp [lower_aten_to_mgx, hnr, hloop]
    rw [hok] at hres
    have hr : (lowerChildren env example_inputs kw (kwGetD kw "verbose")
        nr.children (initRoot nr)).root = r := (Except.ok.inj hres).symm
    have hinit : initRoot nr = ⟨[] ++ subSlots nr.children ++ []⟩ := by
      simp [initRoot]
    rw [hinit] at hloop hr
    have hnd' : ((([] ++ subSlots nr.children ++ []).map Prod.fst)).Nodup := by
      simpa [subSlots_map_fst] using hnd
    obtain ⟨ws, hlen, hroot⟩ := lowerChildren_ok_shape env example_inputs kw
      (kwGetD kw "verbose") nr.children [] [] hnd' hloop
    rw [hr] at hroot
    have hr2 : r.children = mgxSlots nr.children ws := by rw [hroot]; simp
    refine ⟨?_, ?_, ?_⟩
    · rw [hr2, mgxSlots_map_fst nr.children ws hlen]
    · rw [hr2]
      simp [mgxSlots, hlen]
    · intro p hp
      rw [hr2] at hp
      simp only [mgxSlots, List.mem_map] at hp
      obtain ⟨q, _, hq⟩ := hp
      exact ⟨q.2, by rw [← hq]⟩

/-- Witness for C1 at a concrete environment with two children. -/
theorem C1_success_all_children_compiled_witness :
    (lower_aten_to_mgx okEnv ⟨0, 0⟩ [] []).result = Except.ok
      ⟨[("c0", ChildVal.mgx ⟨⟨0⟩, ["x0"], PyVal.bool false⟩),
        ("c1", ChildVal.mgx ⟨⟨1⟩, ["x0"], PyVal.bool false⟩)]⟩ ∧
    ∀ p ∈ (RootModule.mk
        [("c0", ChildVal.mgx ⟨⟨0⟩, ["x0"], PyVal.bool false⟩),
         ("c1", ChildVal.mgx ⟨⟨1⟩, ["x0"], PyVal.bool false⟩)]).children,
      ∃ m : MGXModule, p.2 = ChildVal.mgx m :=
  ⟨rfl,
    (C1_success_all_children_compiled okEnv ⟨0, 0⟩ [] []
      ⟨[("c0", ⟨0, 0⟩), ("c1", ⟨1, 0⟩)]⟩ rfl (by decide) _ rfl).2.2⟩

/-- C3: when, during a whole-graph lowering, children before position k have
been lowered and substituted successfully, the k-th child's input resolution
succeeded, and the k-th child's per-subgraph lowering raises, then the
exception propagates verbatim out of `lower_aten_to_mgx`, and the normalized
root is left partially substituted with no rollback: slots before k hold the
already-installed compiled wrappers, slot k still holds its subgraph (with
the in-place shape-metadata mutation), and slots after k hold exactly their
original subgraphs. -/
theorem C3_failing_child_leaves_partial_substitution (env : Env) (gm : GraphModule)
    (example_inputs : List Tensor) (kw : Kwargs)
    (pre post : List (String × GraphModule)) (nameK : String) (modK : GraphModule)
    (hnr : env.run_aten_passes gm example_inputs (kwGetD kw "verbose") =
      Except.ok ⟨pre ++ (nameK, modK) :: post⟩)
    (hnd : ((pre ++ (nameK, modK) :: post).map Prod.fst).Nodup)
    (rootK : RootModule) (evsPre : List Event)
    (hpre : lowerChildren env example_inputs kw (kwGetD kw "verbose") pre
      (initRoot ⟨pre ++ (nameK, modK) :: post⟩) = ⟨Except.ok (), rootK, evsPre⟩)
    (pin : List Tensor)
    (hpin : env.get_partition_inputs rootK modK example_inputs = Except.ok pin)
    (hname : kwLookup kw "name" = none) (e : Err)
    (hfail : (lower_subgraph env modK pin (subgraphCallKwargs nameK kw)).result =
      Except.error e) :
    (lower_aten_to_mgx env gm example_inputs kw).result = Except.error e ∧
    ∃ ws : List MGXModule, ws.length = pre.length ∧
      (lower_aten_to_mgx env gm example_inputs kw).finalRoot =
        some ⟨mgxSlots pre ws ++
          (nameK, ChildVal.sub
            (lower_subgraph env modK pin (subgraphCallKwargs nameK kw)).finalModule) ::
          subSlots post⟩ := by
  have hpreRes : (lowerChildren env example_inputs kw (kwGetD kw "verbose") pre
      (initRoot ⟨pre ++ (nameK, modK) :: post⟩)).result = Except.ok () := by
    rw [hpre]
  have hpreRoot : (lowerChildren env example_inputs kw (kwGetD kw "verbose") pre
      (initRoot ⟨pre ++ (nameK, modK) :: post⟩)).root = rootK := by
    rw [hpre]
  have hnm : (kwLookup kw "name").isSome = false := by rw [hname]; rfl
  have hstep := lowerChildren_cons_sub_error env example_inputs kw (kwGetD kw "verbose")
    nameK modK post rootK pin e hpin hnm hfail
  have happ := lowerChildren_append_ok env example_inputs kw (kwGetD kw "verbose")
    ((nameK, modK) :: post) pre (initRoot ⟨pre ++ (nameK, modK) :: post⟩) hpreRes
  rw [hpreRoot, hstep] at happ
  have hfullRes : (lowerChildren env example_inputs kw (kwGetD kw "verbose")
      (pre ++ (nameK, modK) :: post)
      (initRoot ⟨pre ++ (nameK, modK) :: post⟩)).result = Except.error e := by
    rw [happ]
  have hfullRoot : (lowerChildren env example_inputs kw (kwGetD kw "verbose")
      (pre ++ (nameK, modK) :: post)
      (initRoot ⟨pre ++ (nameK, modK) :: post⟩)).root =
      setattrChild rootK nameK (ChildVal.sub
        (lower_subgraph env modK pin (subgraphCallKwargs nameK kw)).finalModule) := by
    rw [happ]
  have hinit : initRoot (⟨pre ++ (nameK, modK) :: post⟩ : NormRoot) =
      ⟨[] ++ subSlots pre ++ subSlots ((nameK, modK) :: post)⟩ := by
    simp [initRoot, subSlots_append]
  rw [hinit] at hpreRes hpreRoot
  have hnd' : ((([] ++ subSlots pre ++ subSlots ((nameK, modK) :: post)).map
      Prod.fst)).Nodup := by
    simpa [subSlots_map_fst, subSlots, List.map_append] using hnd
  obtain ⟨ws, hlen, hroot⟩ := lowerChildren_ok_shape env example_inputs kw
    (kwGetD kw "verbose") pre [] (subSlots ((nameK, modK) :: post)) hnd' hpreRes
  rw [hpreRoot] at hroot
  have hrootK : rootK = ⟨mgxSlots pre ws ++
      (nameK, ChildVal.sub modK) :: subSlots post⟩ := by
    rw [hroot]
    simp [subSlots]
  have hnamePre : nameK ∉ (mgxSlots pre ws).map Prod.fst := by
    rw [mgxSlots_map_fst pre ws hlen]
    simp only [List.map_append, List.map_cons, List.cons_append,
      List.append_assoc] at hnd
    have hdisj := (List.nodup_append.mp hnd).2.2
    intro hmem
    exact hdisj hmem (List.mem_cons_self _ _)
  have hset : setattrChild rootK nameK (ChildVal.sub
      (lower_subgraph env modK pin (subgraphCallKwargs nameK kw)).finalModule) =
      ⟨mgxSlots pre ws ++
        (nameK, ChildVal.sub
          (lower_subgraph env modK pin (subgraphCallKwargs nameK kw)).finalModule) ::
        subSlots post⟩ := by
    rw [hrootK]
    simp only [setattrChild]
    rw [replaceFirst_append_of_not_mem _ _ _ _ hnamePre, replaceFirst_cons_self]
  constructor
  · simp [lower_aten_to_mgx, hnr, hfullRes]
  · refine ⟨ws, hlen, ?_⟩
    have hfin : (lower_aten_to_mgx env gm example_inputs kw).finalRoot =
        some (lowerChildren env example_inputs kw (kwGetD kw "verbose")
          (pre ++ (nameK, modK) :: post)
          (initRoot ⟨pre ++ (nameK, modK) :: post⟩)).root := by
      simp [lower_aten_to_mgx, hnr, hfullRes]
    rw [hfin, hfullRoot, hset]

/-- Witness for C3: three children, the second child's interpretation fails;
the first is left substituted, the third untouched, the second shape-mutated
but not substituted. -/
theorem C3_failing_child_leaves_partial_substitution_witness :
    (lower_aten_to_mgx failSecondEnv ⟨0, 0⟩ [] []).result =
      Except.error "unsupported operation" ∧
    ∃ ws : List MGXModule, ws.length = [("c0", (⟨0, 0⟩ : GraphModule))].length ∧
      (lower_aten_to_mgx failSecondEnv ⟨0, 0⟩ [] []).finalRoot =
        some ⟨mgxSlots [("c0", ⟨0, 0⟩)] ws ++
          ("c1", ChildVal.sub
            (lower_subgraph failSecondEnv ⟨1, 0⟩ [1] (subgraphCallKwargs "c1" [])).finalModule) ::
          subSlots [("c2", ⟨2, 0⟩)]⟩ :=
  C3_failing_child_leaves_partial_substitution failSecondEnv ⟨0, 0⟩ [] []
    [("c0", ⟨0, 0⟩)] [("c2", ⟨2, 0⟩)] "c1" ⟨1, 0⟩ rfl (by decide)
    ⟨[("c0", ChildVal.mgx ⟨⟨0⟩, ["x0"], PyVal.bool false⟩),
      ("c1", ChildVal.sub ⟨1, 0⟩), ("c2", ChildVal.sub ⟨2, 0⟩)]⟩ [] rfl
    [1] rfl rfl "unsupported operation" rfl

/-- C2 counterexample: with empty top-level kwargs and one child named `c0`,
the kwargs of the per-subgraph call are not the same set of named options as
the top-level ones — they contain an extra `name` binding. Observably, a
whole-graph save with these options writes `c0.mxr`, while those same
top-level options on their own would name the artifact `prog.mxr`. -/
theorem C2_kwargs_not_identical_counterexample :
    subgraphCallKwargs "c0" [] ≠ ([] : Kwargs) ∧
    (lower_aten_to_mgx oneChildEnv ⟨5, 0⟩ [] [("save_mxr", PyVal.bool true)]).events =
      [Event.saveFile ⟨0⟩ "c0.mxr"] ∧
    mxr_filename [("save_mxr", PyVal.bool true)] = "prog.mxr" :=
  ⟨by decide, rfl, rfl⟩

/-- C2 (amended): each per-subgraph call receives every top-level option
unchanged and, in addition, exactly one binding the top level did not pass:
the child's attribute name as the `name` option. -/
theorem C2_amended_kwargs_passthrough_plus_name (name : String) (kw : Kwargs) :
    kwLookup (subgraphCallKwargs name kw) "name" = some (PyVal.str name) ∧
    ∀ k, k ≠ "name" → kwLookup (subgraphCallKwargs name kw) k = kwLookup kw k :=
  ⟨kwLookup_subgraphCallKwargs_name name kw,
   fun k hk => kwLookup_subgraphCallKwargs_ne name kw k hk⟩

/-- Witness for the amended C2 at concrete kwargs. -/
theorem C2_amended_kwargs_passthrough_plus_name_witness :
    kwLookup (subgraphCallKwargs "c0" [("verbose", PyVal.bool true)]) "name" =
      some (PyVal.str "c0") ∧
    kwLookup (subgraphCallKwargs "c0" [("verbose", PyVal.bool true)]) "verbose" =
      kwLookup [("verbose", PyVal.bool true)] "verbose" :=
  ⟨(C2_amended_kwargs_passthrough_plus_name "c0" [("verbose", PyVal.bool true)]).1,
   (C2_amended_kwargs_passthrough_plus_name "c0" [("verbose", PyVal.bool true)]).2
     "verbose" (by decide)⟩

/-- C4: persistence behavior of `lower_subgraph`. When `save_mxr` is not
truthy, no file-save event occurs on any path; when `save_mxr` is truthy and
the call succeeds, exactly one file is written, holding the compiled program,
named `<name>.mxr` when a `name` option is supplied and `"prog.mxr"`
otherwise. -/
theorem C4_save_mxr_persistence (env : Env) (m : GraphModule) (ins : List Tensor)
    (kw : Kwargs) :
    ((kwGetD kw "save_mxr").truthy = false →
      ∀ p f, Event.saveFile p f ∉ (lower_subgraph env m ins kw).events) ∧
    ((kwGetD kw "save_mxr").truthy = true →
      ∀ mm, (lower_subgraph env m ins kw).result = Except.ok mm →
        (lower_subgraph env m ins kw).events =
          [Event.saveFile mm.program (mxr_filename kw)]) ∧
    (kwLookup kw "name" = none → mxr_filename kw = "prog.mxr") ∧
    (∀ v, kwLookup kw "name" = some v → mxr_filename kw = v.toStr ++ ".mxr") := by
  refine ⟨?_, ?_, ?_, ?_⟩
  · intro hs p f
    unfold lower_subgraph
    cases hsp : env.shape_prop m ins with
    | error e => simp
    | ok m' =>
      cases hint : env.interpret m' ins (kwGetD kw "verbose") with
      | error e => simp [hint]
      | ok pr =>
        obtain ⟨prog, inames⟩ := pr
        simp [hint, hs]
  · intro hs mm hres
    cases hsp : env.shape_prop m ins with
    | error e =>
      unfold lower_subgraph at hres
      rw [hsp] at hres
      simp at hres
    | ok m' =>
      cases hint : env.interpret m' ins (kwGetD kw "verbose") with
      | error e =>
        unfold lower_subgraph at hres
        rw [hsp] at hres
        simp [hint] at hres
      | ok pr =>
        obtain ⟨prog, inames⟩ := pr
        have hmm : MGXModule.mk prog inames (kwGetD kw "fp16") = mm := by
          have h2 := hres
          unfold lower_subgraph at h2
          rw [hsp] at h2
          simp only [hint] at h2
          exact Except.ok.inj h2
        unfold lower_subgraph
        rw [hsp]
        simp [hint, hs, ← hmm]
  · intro h
    simp [mxr_filename, h]
  · intro v h
    simp [mxr_filename, h]

/-- Witness for C4: with `save_mxr` and a name the file is `abc.mxr`; without
`save_mxr` no file is written. -/
theorem C4_save_mxr_persistence_witness :
    (lower_subgraph okEnv ⟨3, 7⟩ [0]
      [("save_mxr", PyVal.bool true), ("name", PyVal.str "abc")]).events =
      [Event.saveFile ⟨3⟩ "abc.mxr"] ∧
    Event.saveFile ⟨3⟩ "prog.mxr" ∉
      (lower_subgraph okEnv ⟨3, 7⟩ [0] [("name", PyVal.str "abc")]).events := by
  constructor
  · have h := (C4_save_mxr_persistence okEnv ⟨3, 7⟩ [0]
      [("save_mxr", PyVal.bool true), ("name", PyVal.str "abc")]).2.1 (by decide)
      ⟨⟨3⟩, ["x0"], PyVal.bool false⟩ rfl
    exact h
  · exact (C4_save_mxr_persistence okEnv ⟨3, 7⟩ [0] [("name", PyVal.str "abc")]).1
      (by decide) ⟨3⟩ "prog.mxr"

/-- C5: when shape propagation raises, `lower_subgraph` fails by propagating
that error verbatim, producing no compiled wrapper and writing no artifact
file. -/
theorem C5_shape_prop_error_propagates (env : Env) (m : GraphModule)
    (ins : List Tensor) (kw : Kwargs) (e : Err)
    (h : env.shape_prop m ins = Except.error e) :
    (lower_subgraph env m ins kw).result = Except.error e ∧
    (lower_subgraph env m ins kw).events = [] ∧
    ∀ mm : MGXModule, (lower_subgraph env m ins kw).result ≠ Except.ok mm := by
  unfold lower_subgraph
  rw [h]
  simp

/-- Witness for C5 in an environment whose shape propagation always fails. -/
theorem C5_shape_prop_error_propagates_witness :
    (lower_subgraph shapeFailEnv ⟨0, 0⟩ [] []).result =
      Except.error "ShapeProp: mismatched input count" ∧
    (lower_subgraph shapeFailEnv ⟨0, 0⟩ [] []).events = [] :=
  ⟨(C5_shape_prop_error_propagates shapeFailEnv ⟨0, 0⟩ [] []
      "ShapeProp: mismatched input count" rfl).1,
   (C5_shape_prop_error_propagates shapeFailEnv ⟨0, 0⟩ [] []
      "ShapeProp: mismatched input count" rfl).2.1⟩

/-- C6: on a successful single-subgraph lowering, the returned wrapper is
constructed from exactly the interpreter's compiled program, the
interpreter's recorded input-name list, and the `fp16` option value
(defaulting to false when absent); it is marked for reduced-precision
execution iff the `fp16` option was supplied with a truthy value. -/
theorem C6_wrapper_construction (env : Env) (m : GraphModule) (ins : List Tensor)
    (kw : Kwargs) (m' : GraphModule) (prog : MGXProgram) (inames : List String)
    (hsp : env.shape_prop m ins = Except.ok m')
    (hint : env.interpret m' ins (kwGetD kw "verbose") = Except.ok (prog, inames)) :
    (lower_subgraph env m ins kw).result =
      Except.ok ⟨prog, inames, kwGetD kw "fp16"⟩ ∧
    ((kwGetD kw "fp16").truthy = true ↔
      ∃ v, kwLookup kw "fp16" = some v ∧ v.truthy = true) := by
  constructor
  · unfold lower_subgraph
    rw [hsp]
    simp [hint]
  · cases hv : kwLookup kw "fp16" with
    | none => simp [kwGetD, hv, PyVal.truthy]
    | some v => simp [kwGetD, hv]

/-- Witness for C6 with a truthy `fp16` option. -/
theorem C6_wrapper_construction_witness :
    (lower_subgraph okEnv ⟨3, 7⟩ [0] [("fp16", PyVal.bool true)]).result =
      Except.ok ⟨⟨3⟩, ["x0"], kwGetD [("fp16", PyVal.bool true)] "fp16"⟩ ∧
    ((kwGetD [("fp16", PyVal.bool true)] "fp16").truthy = true ↔
      ∃ v, kwLookup [("fp16", PyVal.bool true)] "fp16" = some v ∧
        v.truthy = true) :=
  C6_wrapper_construction okEnv ⟨3, 7⟩ [0] [("fp16", PyVal.bool true)]
    ⟨3, 8⟩ ⟨3⟩ ["x0"] rfl rfl

theorem lower_aten_events_split (env : Env) (gm : GraphModule)
    (example_inputs : List Tensor) (kw : Kwargs) (nr : NormRoot)
    (hnr : env.run_aten_passes gm example_inputs (kwGetD kw "verbose") = Except.ok nr) :
    (lower_aten_to_mgx env gm example_inputs kw).events =
      (if (kwGetD kw "verbose").truthy = true
        then [Event.printGraphInfo "Traced Model"] else []) ++
      (lowerChildren env example_inputs kw (kwGetD kw "verbose")
        nr.children (initRoot nr)).events := by
  cases hloop : (lowerChildren env example_inputs kw (kwGetD kw "verbose")
      nr.children (initRoot nr)).result with
  | error e => simp [lower_aten_to_mgx, hnr, hloop]
  | ok u =>
    cases u
    simp [lower_aten_to_mgx, hnr, hloop]

/-- C7 counterexample: a direct `lower_subgraph` call with `verbose` supplied
and true performs no graph-info printing at all — the claim's "printing
occurs iff verbose is supplied and true" fails for the single-subgraph
operation, which only forwards `verbose` to the interpreter's logging. -/
theorem C7_verbose_print_counterexample :
    (kwGetD [("verbose", PyVal.bool true)] "verbose").truthy = true ∧
    (lower_subgraph okEnv ⟨3, 7⟩ [0] [("verbose", PyVal.bool true)]).events = [] :=
  ⟨rfl, rfl⟩

/-- C7 (amended): for the whole-graph operation, diagnostic graph-info
printing occurs iff the `verbose` option is supplied and truthy (defaulting
to false when absent) — the traced root before normalization and each child
before its lowering step; the single-subgraph operation itself performs no
graph-info printing regardless of `verbose`. -/
theorem C7_amended_verbose_controls_printing (env : Env) (gm : GraphModule)
    (example_inputs : List Tensor) (kw : Kwargs) (env2 : Env) (m : GraphModule)
    (ins : List Tensor) (kw2 : Kwargs) :
    ((∃ l, Event.printGraphInfo l ∈
        (lower_aten_to_mgx env gm example_inputs kw).events) ↔
      (kwGetD kw "verbose").truthy = true) ∧
    ∀ l, Event.printGraphInfo l ∉ (lower_subgraph env2 m ins kw2).events := by
  constructor
  · constructor
    · rintro ⟨l, hl⟩
      by_contra hv
      have hv' : (kwGetD kw "verbose").truthy = false := by
        cases h : (kwGetD kw "verbose").truthy
        · rfl
        · exact absurd h hv
      cases hrun : env.run_aten_passes gm example_inputs (kwGetD kw "verbose") with
      | error e =>
        have hev : (lower_aten_to_mgx env gm example_inputs kw).events = [] := by
          simp [lower_aten_to_mgx, hrun, hv']
        rw [hev] at hl
        simp at hl
      | ok nr =>
        rw [lower_aten_events_split env gm example_inputs kw nr hrun] at hl
        rw [hv'] at hl
        simp only [Bool.false_eq_true, if_false, List.nil_append] at hl
        exact lowerChildren_no_print env example_inputs kw (kwGetD kw "verbose") hv'
          nr.children (initRoot nr) l hl
    · intro hv
      refine ⟨"Traced Model", ?_⟩
      cases hrun : env.run_aten_passes gm example_inputs (kwGetD kw "verbose") with
      | error e => simp [lower_aten_to_mgx, hrun, hv]
      | ok nr =>
        rw [lower_aten_events_split env gm example_inputs kw nr hrun, hv]
        simp
  · intro l
    exact lower_subgraph_no_print env2 m ins kw2 l

/-- C8: on the whole-graph path every per-subgraph call receives the child's
attribute name bound to the `name` option, so every artifact written is named
`<child_name>.mxr` and the `"prog.mxr"` default-name branch is never taken. -/
theorem C8_whole_graph_artifacts_child_named (env : Env) (gm : GraphModule)
    (example_inputs : List Tensor) (kw : Kwargs) (nr : NormRoot)
    (hnr : env.run_aten_passes gm example_inputs (kwGetD kw "verbose") = Except.ok nr) :
    (∀ p f, Event.saveFile p f ∈ (lower_aten_to_mgx env gm example_inputs kw).events →
      ∃ name, name ∈ nr.children.map Prod.fst ∧ f = name ++ ".mxr") ∧
    (∀ name kwx, kwLookup (subgraphCallKwargs name kwx) "name" =
      some (PyVal.str name)) ∧
    (∀ name kwx, mxr_filename (subgraphCallKwargs name kwx) = name ++ ".mxr") := by
  refine ⟨?_, fun name kwx => kwLookup_subgraphCallKwargs_name name kwx,
    fun name kwx => mxr_filename_subgraphCallKwargs name kwx⟩
  intro p f hmem
  rw [lower_aten_events_split env gm example_inputs kw nr hnr] at hmem
  rcases List.mem_append.mp hmem with h | h
  · exfalso
    cases hb : (kwGetD kw "verbose").truthy <;> rw [hb] at h <;> simp at h
  · exact lowerChildren_saveFile_name env example_inputs kw (kwGetD kw "verbose")
      nr.children (initRoot nr) p f h

/-- Witness for C8: the artifact of the one-child whole-graph save is named
after the child. -/
theorem C8_whole_graph_artifacts_child_named_witness :
    ∃ name, name ∈ (NormRoot.mk [("c0", (⟨0, 0⟩ : GraphModule))]).children.map Prod.fst ∧
      "c0.mxr" = name ++ ".mxr" :=
  (C8_whole_graph_artifacts_child_named oneChildEnv ⟨5, 0⟩ []
    [("save_mxr", PyVal.bool true)] ⟨[("c0", ⟨0, 0⟩)]⟩ rfl).1 ⟨0⟩ "c0.mxr" (by decide)

/-- C9: two `lower_subgraph` calls agreeing on `verbose` and `fp16`, with
`save_mxr` false or absent in both, produce identical outcomes and write no
file: the `name` option and unrecognized options have no influence when
persistence is not requested. -/
theorem C9_irrelevant_options_no_influence (env : Env) (m : GraphModule)
    (ins : List Tensor) (kw1 kw2 : Kwargs)
    (hv : kwLookup kw1 "verbose" = kwLookup kw2 "verbose")
    (hf : kwLookup kw1 "fp16" = kwLookup kw2 "fp16")
    (hs1 : (kwGetD kw1 "save_mxr").truthy = false)
    (hs2 : (kwGetD kw2 "save_mxr").truthy = false) :
    lower_subgraph env m ins kw1 = lower_subgraph env m ins kw2 ∧
    (lower_subgraph env m ins kw1).events = [] := by
  have hv' : kwGetD kw1 "verbose" = kwGetD kw2 "verbose" := by simp [kwGetD, hv]
  have hf' : kwGetD kw1 "fp16" = kwGetD kw2 "fp16" := by simp [kwGetD, hf]
  unfold lower_subgraph
  cases hsp : env.shape_prop m ins with
  | error e => simp [hsp]
  | ok m' =>
    simp only [hsp]
    rw [hv']
    cases hint : env.interpret m' ins (kwGetD kw2 "verbose") with
    | error e => simp [hint]
    | ok pr =>
      obtain ⟨prog, inames⟩ := pr
      simp [hint, hf', hs1, hs2]

/-- Witness for C9: changing the `name` option and adding an unrecognized
option changes nothing when `save_mxr` is absent. -/
theorem C9_irrelevant_options_no_influence_witness :
    lower_subgraph okEnv ⟨3, 7⟩ [0]
        [("name", PyVal.str "a"), ("junk", PyVal.bool true)] =
      lower_subgraph okEnv ⟨3, 7⟩ [0] [("name", PyVal.str "b")] ∧
    (lower_subgraph okEnv ⟨3, 7⟩ [0]
      [("name", PyVal.str "a"), ("junk", PyVal.bool true)]).events = [] :=
  C9_irrelevant_options_no_influence okEnv ⟨3, 7⟩ [0]
    [("name", PyVal.str "a"), ("junk", PyVal.bool true)]
    [("name", PyVal.str "b")] rfl rfl rfl rfl

/-- C10: when shape propagation succeeds (mutating the subgraph's node
metadata in place) and the interpreter's run then raises, the exception
propagates to the caller, no file is written and no wrapper is constructed,
but the subgraph is left in its shape-propagated state: the in-place
mutation is not undone. -/
theorem C10_interpreter_error_keeps_mutation (env : Env) (m : GraphModule)
    (ins : List Tensor) (kw : Kwargs) (m' : GraphModule) (e : Err)
    (hsp : env.shape_prop m ins = Except.ok m')
    (hint : env.interpret m' ins (kwGetD kw "verbose") = Except.error e) :
    (lower_subgraph env m ins kw).result = Except.error e ∧
    (lower_subgraph env m ins kw).events = [] ∧
    (lower_subgraph env m ins kw).finalModule = m' ∧
    ∀ mm : MGXModule, (lower_subgraph env m ins kw).result ≠ Except.ok mm := by
  unfold lower_subgraph
  rw [hsp]
  simp [hint]

/-- Witness for C10: the failing module is left with its metadata bumped by
shape propagation, different from its pre-call state. -/
theorem C10_interpreter_error_keeps_mutation_witness :
    (lower_subgraph interpFailEnv ⟨0, 0⟩ [] []).result =
      Except.error "MGXInterpreter: unsupported operation" ∧
    (lower_subgraph interpFailEnv ⟨0, 0⟩ [] []).finalModule = ⟨0, 1⟩ ∧
    (⟨0, 1⟩ : GraphModule) ≠ ⟨0, 0⟩ :=
  ⟨(C10_interpreter_error_keeps_mutation interpFailEnv ⟨0, 0⟩ [] [] ⟨0, 1⟩
      "MGXInterpreter: unsupported operation" rfl rfl).1,
   (C10_interpreter_error_keeps_mutation interpFailEnv ⟨0, 0⟩ [] [] ⟨0, 1⟩
      "MGXInterpreter: unsupported operation" rfl rfl).2.2.1,
   by decide⟩

end TorchMigraphx
